import Mathlib

/-!
Verification of the adapter in
src/merged-packages/json-rpc-engine/src/createAsyncMiddleware.ts.

The adapter wraps a suspend-style handler into the engine's
(req, res, next, end) callback convention.  All execution in the source is
single-threaded cooperative async: the only nondeterminism is when the
external engine invokes the callback handed to it through next.  We embed
the wrapper as a deterministic interpreter over a small language of handler
actions, parameterized by the engine's timing (engineSync = true means the
engine invokes the callback synchronously inside next; false means it fires
at the next suspension point of the wrapper, as guaranteed by the engine
contract that the callback is eventually invoked).  The interpreter records
an event trace from which the claims are stated.
-/

set_option maxHeartbeats 1000000

namespace CreateAsyncMiddleware

/-- JavaScript values, as relevant to this adapter: request params, response
results, and thrown error values.  Truthiness follows JavaScript coercion. -/
inductive JsVal where
  | null
  | undef
  | bool (b : Bool)
  | num (n : Int)
  | str (s : String)
  | errObj (msg : String)
deriving Repr, DecidableEq

/-- JavaScript truthiness of a value. -/
def JsVal.truthy : JsVal → Bool
  | .null => false
  | .undef => false
  | .bool b => b
  | .num n => decide (n ≠ 0)
  | .str s => decide (s ≠ "")
  | .errObj _ => true

/-- The request object (JsonRpcRequest in the source): opaque structured
data; the handler may mutate params, the wrapper never touches it. -/
structure JsonRpcRequest where
  id : Int
  method : String
  params : JsVal
deriving Repr, DecidableEq

/-- The pending response object (PendingJsonRpcResponse in the source): a
mutable record shared between wrapper and handler. -/
structure PendingJsonRpcResponse where
  id : Int
  result : Option JsVal
  error : Option JsVal
deriving Repr, DecidableEq

/-- The contents of the wrapper's returnHandlerCallback variable: it is
initialized to null and, when the engine calls back, holds the engine's
runReturnHandlersCallback function (a function, hence truthy). -/
inductive CallbackSlot where
  | nullSlot
  | engineCallback
deriving Repr, DecidableEq

/-- JavaScript truthiness of the slot contents: null is falsy, a function is
truthy.  This embeds the test on line 86 of the source,
if (returnHandlerCallback) { ... }. -/
def CallbackSlot.truthy : CallbackSlot → Bool
  | .nullSlot => false
  | .engineCallback => true

/-- Observable events of one call of the produced middleware, in
chronological order. -/
inductive Event where
  /-- nextWasCalled is set to true (line 63). -/
  | flagSet
  /-- the wrapper invokes the engine's next (line 67). -/
  | nextInvoked
  /-- the engine invokes the callback passed to next, supplying
  runReturnHandlersCallback; the wrapper stores it and resolves nextPromise
  (lines 68-71). -/
  | engineSuppliedCallback
  /-- the wrapper invokes the engine's end (finalize) with the argument. -/
  | endInvoked (arg : JsVal)
  /-- the wrapper invokes the captured returnHandlerCallback with the
  argument. -/
  | returnHandlerInvoked (arg : JsVal)
deriving Repr, DecidableEq

/-- Is an event an invocation of a completion channel (end or the captured
returnHandlerCallback)? -/
def Event.isCompletion : Event → Bool
  | .endInvoked _ => true
  | .returnHandlerInvoked _ => true
  | _ => false

/-- Is an event an invocation of the engine's next? -/
def Event.isNextInvoked : Event → Bool
  | .nextInvoked => true
  | _ => false

/-- The state of one call of the produced middleware: the closure variables
of the source (nextPromise resolution status, returnHandlerCallback,
nextWasCalled), the shared request/response objects, whether the engine owes
an invocation of the callback passed to next (enginePending), and the trace
of events so far. -/
structure MwState where
  req : JsonRpcRequest
  res : PendingJsonRpcResponse
  nextPromiseResolved : Bool
  returnHandlerCallback : CallbackSlot
  nextWasCalled : Bool
  enginePending : Bool
  trace : List Event
deriving Repr, DecidableEq

/-- Initial state of a call: nextPromise unresolved, returnHandlerCallback
null, nextWasCalled false (lines 53-59). -/
def initState (req : JsonRpcRequest) (res : PendingJsonRpcResponse) : MwState :=
  { req := req
    res := res
    nextPromiseResolved := false
    returnHandlerCallback := CallbackSlot.nullSlot
    nextWasCalled := false
    enginePending := false
    trace := [] }

/-- The engine invokes the callback the wrapper passed to next (lines 67-71):
the wrapper stores the supplied runReturnHandlersCallback in
returnHandlerCallback and calls resolveNextPromise. -/
def engineSuppliesCallback (s : MwState) : MwState :=
  { s with
    returnHandlerCallback := CallbackSlot.engineCallback
    nextPromiseResolved := true
    enginePending := false
    trace := s.trace ++ [Event.engineSuppliedCallback] }

/-- One action of the wrapped handler.  callNext's flag records whether the
handler awaits the promise returned by asyncNext (the adapter must work
either way). -/
inductive HStep where
  | setResult (v : JsVal)
  | setReqParams (v : JsVal)
  | callNext (awaited : Bool)
  | throwVal (e : JsVal)
deriving Repr, DecidableEq

/-- The asyncNext closure (lines 62-74): set nextWasCalled to true, invoke
the engine's next passing the callback embedded by engineSuppliesCallback,
then await nextPromise.  If the engine calls back synchronously inside next
(engineSync), the promise is already resolved at the await; otherwise, when
the handler awaits asyncNext, the await suspends and the engine's pending
callback fires before execution resumes.  When the handler does not await,
control returns to the handler with asyncNext's body suspended at the
await. -/
def asyncNext (engineSync awaited : Bool) (s : MwState) : MwState :=
  let s2 : MwState :=
    { s with
      nextWasCalled := true
      trace := s.trace ++ [Event.flagSet, Event.nextInvoked] }
  let s3 : MwState :=
    if engineSync then engineSuppliesCallback s2 else { s2 with enginePending := true }
  if awaited && !s3.nextPromiseResolved then engineSuppliesCallback s3 else s3

/-- Run the handler's actions in order from a state; execution stops at the
first thrown value, which is returned in the second component (a rejected
handler promise).  Mirrors the call asyncMiddleware(req, res, asyncNext) on
line 78. -/
def runHandler (engineSync : Bool) : List HStep → MwState → MwState × Option JsVal
  | [], s => (s, none)
  | HStep.setResult v :: rest, s =>
      runHandler engineSync rest { s with res := { s.res with result := some v } }
  | HStep.setReqParams v :: rest, s =>
      runHandler engineSync rest { s with req := { s.req with params := v } }
  | HStep.callNext awaited :: rest, s =>
      runHandler engineSync rest (asyncNext engineSync awaited s)
  | HStep.throwVal e :: _, s => (s, some e)

/-- Record an invocation of the engine's end (finalize). -/
def endInvoke (arg : JsVal) (s : MwState) : MwState :=
  { s with trace := s.trace ++ [Event.endInvoked arg] }

/-- Record an invocation of the captured returnHandlerCallback. -/
def returnHandlerInvoke (arg : JsVal) (s : MwState) : MwState :=
  { s with trace := s.trace ++ [Event.returnHandlerInvoked arg] }

/-- The body of the try block (lines 77-84): await the handler; on normal
resolution, if nextWasCalled await nextPromise again (firing the engine's
still-pending callback if the promise is unresolved — the defensive double
wait) and invoke the captured returnHandlerCallback with null, else invoke
end with null.  A thrown value propagates as Except.error. -/
def middlewareTryBody (engineSync : Bool) (steps : List HStep) (s : MwState) :
    MwState × Except JsVal Unit :=
  match runHandler engineSync steps s with
  | (s1, some e) => (s1, Except.error e)
  | (s1, none) =>
      if s1.nextWasCalled then
        let s2 := if s1.nextPromiseResolved then s1 else engineSuppliesCallback s1
        (returnHandlerInvoke JsVal.null s2, Except.ok ())
      else
        (endInvoke JsVal.null s1, Except.ok ())

/-- Did the returned middleware promise resolve or reject? -/
inductive MwOutcome where
  | resolved
  | rejected (e : JsVal)
deriving Repr, DecidableEq

/-- One call of the produced middleware (lines 49-92): run the try body; the
catch block (lines 85-91) routes a thrown value to the captured
returnHandlerCallback if that variable is truthy, else to end.  The engine's
end and the captured callback are modelled as not throwing, per the engine
contract. -/
def runMiddleware (engineSync : Bool) (steps : List HStep)
    (req : JsonRpcRequest) (res : PendingJsonRpcResponse) : MwState × MwOutcome :=
  match middlewareTryBody engineSync steps (initState req res) with
  | (s1, Except.ok _) => (s1, MwOutcome.resolved)
  | (s1, Except.error e) =>
      if s1.returnHandlerCallback.truthy then (returnHandlerInvoke e s1, MwOutcome.resolved)
      else (endInvoke e s1, MwOutcome.resolved)

/-- The handler's own effect on the shared request/response pair, as a pure
function of its actions (stopping at the first throw).  Used to state that
the wrapper contributes no mutation of its own. -/
def applySteps : List HStep → JsonRpcRequest × PendingJsonRpcResponse →
    JsonRpcRequest × PendingJsonRpcResponse
  | [], p => p
  | HStep.setResult v :: rest, (rq, rs) => applySteps rest (rq, { rs with result := some v })
  | HStep.setReqParams v :: rest, (rq, rs) => applySteps rest ({ rq with params := v }, rs)
  | HStep.callNext _ :: rest, p => applySteps rest p
  | HStep.throwVal _ :: _, p => p

/-- Does the handler invoke its continuation parameter before resolving or
throwing? -/
def scriptCallsNext : List HStep → Bool
  | [] => false
  | HStep.callNext _ :: _ => true
  | HStep.throwVal _ :: _ => false
  | _ :: rest => scriptCallsNext rest

/-- How many times the handler invokes its continuation parameter before
resolving or throwing. -/
def executedNextCalls : List HStep → Nat
  | [] => 0
  | HStep.callNext _ :: rest => executedNextCalls rest + 1
  | HStep.throwVal _ :: _ => 0
  | _ :: rest => executedNextCalls rest

/-- Does the script contain a request mutation anywhere? -/
def scriptWritesReq : List HStep → Bool
  | [] => false
  | HStep.setReqParams _ :: _ => true
  | _ :: rest => scriptWritesReq rest

/-- Sample request for witnesses. -/
def sampleReq : JsonRpcRequest := { id := 1, method := "m", params := JsVal.null }

/-- Sample pending response for witnesses. -/
def sampleRes : PendingJsonRpcResponse := { id := 1, result := none, error := none }

/-- State invariant maintained by the wrapper during handler execution:
once nextPromise is resolved the engine's callback has been stored and the
corresponding event is on the trace; if nextWasCalled then either the
promise is resolved or the engine still owes its callback (so the step-4
await terminates); and the callback slot is still null as long as the
handler has not invoked its continuation. -/
def Inv (s : MwState) : Prop :=
  (s.nextPromiseResolved = true →
      s.returnHandlerCallback = CallbackSlot.engineCallback
      ∧ Event.engineSuppliedCallback ∈ s.trace)
  ∧ (s.nextWasCalled = true → (s.nextPromiseResolved = true ∨ s.enginePending = true))
  ∧ (s.nextWasCalled = false → s.returnHandlerCallback = CallbackSlot.nullSlot)

theorem initState_inv (req : JsonRpcRequest) (res : PendingJsonRpcResponse) :
    Inv (initState req res) := by
  refine ⟨?_, ?_, ?_⟩ <;> intro h <;> simp [initState] at h ⊢

theorem asyncNext_req (es aw : Bool) (s : MwState) : (asyncNext es aw s).req = s.req := by
  unfold asyncNext
  cases es <;> cases aw <;> cases hnp : s.nextPromiseResolved <;>
    simp [engineSuppliesCallback, hnp]

theorem asyncNext_res (es aw : Bool) (s : MwState) : (asyncNext es aw s).res = s.res := by
  unfold asyncNext
  cases es <;> cases aw <;> cases hnp : s.nextPromiseResolved <;>
    simp [engineSuppliesCallback, hnp]

theorem asyncNext_nextWasCalled (es aw : Bool) (s : MwState) :
    (asyncNext es aw s).nextWasCalled = true := by
  unfold asyncNext
  cases es <;> cases aw <;> cases hnp : s.nextPromiseResolved <;>
    simp [engineSuppliesCallback, hnp]

theorem asyncNext_filterCompletion (es aw : Bool) (s : MwState) :
    (asyncNext es aw s).trace.filter Event.isCompletion
      = s.trace.filter Event.isCompletion := by
  unfold asyncNext
  cases es <;> cases aw <;> cases hnp : s.nextPromiseResolved <;>
    simp [engineSuppliesCallback, hnp, List.filter_append, Event.isCompletion]

theorem asyncNext_filterNext (es aw : Bool) (s : MwState) :
    (asyncNext es aw s).trace.filter Event.isNextInvoked
      = s.trace.filter Event.isNextInvoked ++ [Event.nextInvoked] := by
  unfold asyncNext
  cases es <;> cases aw <;> cases hnp : s.nextPromiseResolved <;>
    simp [engineSuppliesCallback, hnp, List.filter_append, Event.isNextInvoked]

theorem asyncNext_trace_shape (es aw : Bool) (s : MwState) :
    ∃ t, (asyncNext es aw s).trace = s.trace ++ [Event.flagSet, Event.nextInvoked] ++ t := by
  unfold asyncNext
  cases es <;> cases aw <;> cases hnp : s.nextPromiseResolved <;>
    first
      | exact ⟨[Event.engineSuppliedCallback], rfl⟩
      | exact ⟨[], (List.append_nil _).symm⟩

theorem asyncNext_awaited_resolved (es : Bool) (s : MwState) :
    (asyncNext es true s).nextPromiseResolved = true := by
  unfold asyncNext
  cases es <;> cases hnp : s.nextPromiseResolved <;> simp [engineSuppliesCallback, hnp]

theorem asyncNext_awaited_captured (es : Bool) (s : MwState)
    (h : s.nextPromiseResolved = false) :
    (asyncNext es true s).returnHandlerCallback = CallbackSlot.engineCallback := by
  unfold asyncNext
  cases es <;> simp [engineSuppliesCallback, h]

theorem asyncNext_resolved_or_pending (es aw : Bool) (s : MwState) :
    (asyncNext es aw s).nextPromiseResolved = true
    ∨ (asyncNext es aw s).enginePending = true := by
  unfold asyncNext
  cases es <;> cases aw <;> cases hnp : s.nextPromiseResolved <;>
    simp [engineSuppliesCallback, hnp]

theorem asyncNext_capture (es aw : Bool) (s : MwState)
    (h : s.nextPromiseResolved = true →
        s.returnHandlerCallback = CallbackSlot.engineCallback
        ∧ Event.engineSuppliedCallback ∈ s.trace) :
    (asyncNext es aw s).nextPromiseResolved = true →
      (asyncNext es aw s).returnHandlerCallback = CallbackSlot.engineCallback
      ∧ Event.engineSuppliedCallback ∈ (asyncNext es aw s).trace := by
  unfold asyncNext
  cases es <;> cases aw <;> cases hnp : s.nextPromiseResolved <;> intro hres <;>
    first
      | exact ⟨rfl, by simp [engineSuppliesCallback]⟩
      | exact ⟨(h hnp).1, by simp [List.mem_append, (h hnp).2]⟩
      | exact absurd hres (by simp [engineSuppliesCallback])

theorem asyncNext_inv (es aw : Bool) (s : MwState) (h : Inv s) : Inv (asyncNext es aw s) := by
  refine ⟨asyncNext_capture es aw s h.1, ?_, ?_⟩
  · intro _
    exact asyncNext_resolved_or_pending es aw s
  · intro hh
    rw [asyncNext_nextWasCalled] at hh
    exact Bool.noConfusion hh

theorem runHandler_filterCompletion (es : Bool) (steps : List HStep) (s : MwState) :
    (runHandler es steps s).1.trace.filter Event.isCompletion
      = s.trace.filter Event.isCompletion := by
  induction steps generalizing s with
  | nil => rfl
  | cons step rest ih =>
    cases step with
    | setResult v => exact ih _
    | setReqParams v => exact ih _
    | callNext aw => exact (ih _).trans (asyncNext_filterCompletion es aw s)
    | throwVal e => rfl

theorem runHandler_countNext (es : Bool) (steps : List HStep) (s : MwState) :
    ((runHandler es steps s).1.trace.filter Event.isNextInvoked).length
      = (s.trace.filter Event.isNextInvoked).length + executedNextCalls steps := by
  induction steps generalizing s with
  | nil => rfl
  | cons step rest ih =>
    cases step with
    | setResult v => exact ih _
    | setReqParams v => exact ih _
    | callNext aw =>
        have h1 := ih (asyncNext es aw s)
        rw [asyncNext_filterNext es aw s] at h1
        simp only [List.length_append, List.length_cons, List.length_nil] at h1
        show ((runHandler es rest (asyncNext es aw s)).1.trace.filter Event.isNextInvoked).length
          = (s.trace.filter Event.isNextInvoked).length + (executedNextCalls rest + 1)
        omega
    | throwVal e => rfl

theorem runHandler_reqres (es : Bool) (steps : List HStep) (s : MwState) :
    ((runHandler es steps s).1.req, (runHandler es steps s).1.res)
      = applySteps steps (s.req, s.res) := by
  induction steps generalizing s with
  | nil => rfl
  | cons step rest ih =>
    cases step with
    | setResult v => exact ih _
    | setReqParams v => exact ih _
    | callNext aw =>
        have h := ih (asyncNext es aw s)
        rw [asyncNext_req, asyncNext_res] at h
        exact h
    | throwVal e => rfl

theorem runHandler_flag (es : Bool) (steps : List HStep) (s : MwState) :
    (runHandler es steps s).1.nextWasCalled = (s.nextWasCalled || scriptCallsNext steps) := by
  induction steps generalizing s with
  | nil => exact (Bool.or_false _).symm
  | cons step rest ih =>
    cases step with
    | setResult v => exact ih _
    | setReqParams v => exact ih _
    | callNext aw =>
        have h := ih (asyncNext es aw s)
        rw [asyncNext_nextWasCalled] at h
        rw [show scriptCallsNext (HStep.callNext aw :: rest) = true from rfl, Bool.or_true]
        simpa using h
    | throwVal e => exact (Bool.or_false _).symm

theorem runHandler_inv (es : Bool) (steps : List HStep) (s : MwState) (h : Inv s) :
    Inv (runHandler es steps s).1 := by
  induction steps generalizing s with
  | nil => exact h
  | cons step rest ih =>
    cases step with
    | setResult v => exact ih _ h
    | setReqParams v => exact ih _ h
    | callNext aw => exact ih _ (asyncNext_inv es aw s h)
    | throwVal e => exact h

theorem applySteps_noWrite (steps : List HStep) (p : JsonRpcRequest × PendingJsonRpcResponse)
    (h : scriptWritesReq steps = false) : (applySteps steps p).1 = p.1 := by
  induction steps generalizing p with
  | nil => rfl
  | cons step rest ih =>
    cases step with
    | setResult v => rcases p with ⟨rq, rs⟩; exact ih _ h
    | setReqParams v => simp [scriptWritesReq] at h
    | callNext aw => exact ih _ h
    | throwVal e => rfl

theorem runMiddleware_ok_noNext (es : Bool) (steps : List HStep)
    (req : JsonRpcRequest) (res : PendingJsonRpcResponse) (s1 : MwState)
    (h : runHandler es steps (initState req res) = (s1, none))
    (hw : s1.nextWasCalled = false) :
    runMiddleware es steps req res = (endInvoke JsVal.null s1, MwOutcome.resolved) := by
  simp [runMiddleware, middlewareTryBody, h, hw]

theorem runMiddleware_ok_next (es : Bool) (steps : List HStep)
    (req : JsonRpcRequest) (res : PendingJsonRpcResponse) (s1 : MwState)
    (h : runHandler es steps (initState req res) = (s1, none))
    (hw : s1.nextWasCalled = true) :
    runMiddleware es steps req res
      = (returnHandlerInvoke JsVal.null
          (if s1.nextPromiseResolved then s1 else engineSuppliesCallback s1),
         MwOutcome.resolved) := by
  simp [runMiddleware, middlewareTryBody, h, hw]

theorem runMiddleware_err (es : Bool) (steps : List HStep)
    (req : JsonRpcRequest) (res : PendingJsonRpcResponse) (s1 : MwState) (e : JsVal)
    (h : runHandler es steps (initState req res) = (s1, some e)) :
    runMiddleware es steps req res
      = (if s1.returnHandlerCallback.truthy then (returnHandlerInvoke e s1, MwOutcome.resolved)
         else (endInvoke e s1, MwOutcome.resolved)) := by
  simp [runMiddleware, middlewareTryBody, h]

theorem runMiddleware_req_eq (es : Bool) (steps : List HStep)
    (req : JsonRpcRequest) (res : PendingJsonRpcResponse) :
    (runMiddleware es steps req res).1.req
      = (runHandler es steps (initState req res)).1.req := by
  rcases hr : runHandler es steps (initState req res) with ⟨s1, o⟩
  cases o with
  | none =>
      cases hw : s1.nextWasCalled with
      | false => rw [runMiddleware_ok_noNext es steps req res s1 hr hw]; rfl
      | true =>
          rw [runMiddleware_ok_next es steps req res s1 hr hw]
          cases hres : s1.nextPromiseResolved <;>
            simp [hres, returnHandlerInvoke, engineSuppliesCallback]
  | some e =>
      rw [runMiddleware_err es steps req res s1 e hr]
      cases ht : s1.returnHandlerCallback.truthy <;>
        simp [ht, endInvoke, returnHandlerInvoke]

theorem runMiddleware_flag_eq (es : Bool) (steps : List HStep)
    (req : JsonRpcRequest) (res : PendingJsonRpcResponse) :
    (runMiddleware es steps req res).1.nextWasCalled
      = (runHandler es steps (initState req res)).1.nextWasCalled := by
  rcases hr : runHandler es steps (initState req res) with ⟨s1, o⟩
  cases o with
  | none =>
      cases hw : s1.nextWasCalled with
      | false => rw [runMiddleware_ok_noNext es steps req res s1 hr hw]; exact hw
      | true =>
          rw [runMiddleware_ok_next es steps req res s1 hr hw]
          cases hres : s1.nextPromiseResolved <;>
            simp [hres, returnHandlerInvoke, engineSuppliesCallback, hw]
  | some e =>
      rw [runMiddleware_err es steps req res s1 e hr]
      cases ht : s1.returnHandlerCallback.truthy <;>
        simp [ht, endInvoke, returnHandlerInvoke]

/-- Claim C1: for every handler behavior and either engine timing, one call of
the produced middleware invokes a completion channel (the engine's finalize
end, or the captured returnHandlerCallback) exactly once: never both
channels, never zero invocations, under both normal and error termination. -/
theorem claim_C1_exactly_once_completion (es : Bool) (steps : List HStep)
    (req : JsonRpcRequest) (res : PendingJsonRpcResponse) :
    ((runMiddleware es steps req res).1.trace.filter Event.isCompletion).length = 1 := by
  rcases hr : runHandler es steps (initState req res) with ⟨s1, o⟩
  have hc : s1.trace.filter Event.isCompletion = [] := by
    have h := runHandler_filterCompletion es steps (initState req res)
    rw [hr] at h
    simpa [initState] using h
  cases o with
  | none =>
      cases hw : s1.nextWasCalled with
      | false =>
          rw [runMiddleware_ok_noNext es steps req res s1 hr hw]
          simp [endInvoke, List.filter_append, Event.isCompletion, hc]
      | true =>
          rw [runMiddleware_ok_next es steps req res s1 hr hw]
          cases hres : s1.nextPromiseResolved with
          | false =>
              simp [hres, returnHandlerInvoke, engineSuppliesCallback, List.filter_append,
                Event.isCompletion, hc]
          | true =>
              simp [hres, returnHandlerInvoke, List.filter_append, Event.isCompletion, hc]
  | some e =>
      rw [runMiddleware_err es steps req res s1 e hr]
      cases ht : s1.returnHandlerCallback.truthy with
      | false => simp [ht, endInvoke, List.filter_append, Event.isCompletion, hc]
      | true => simp [ht, returnHandlerInvoke, List.filter_append, Event.isCompletion, hc]

/-- Claim C2: when the handler throws, the error is routed by a single rule:
the catch block invokes the captured returnHandlerCallback with the error if
that callback has been captured at the time of the throw (the slot is
truthy), otherwise it invokes finalize with the error; the choice depends
only on the capture status, not on nextWasCalled.  In particular a throw
before the continuation was invoked reaches finalize, and a throw after
capture reaches the registered callback. -/
theorem claim_C2_error_routing (es : Bool) (steps : List HStep)
    (req : JsonRpcRequest) (res : PendingJsonRpcResponse) (s1 : MwState) (e : JsVal)
    (h : runHandler es steps (initState req res) = (s1, some e)) :
    (runMiddleware es steps req res).1.trace
      = s1.trace ++ [if s1.returnHandlerCallback.truthy then Event.returnHandlerInvoked e
                     else Event.endInvoked e]
    ∧ (s1.nextWasCalled = false →
        (runMiddleware es steps req res).1.trace = s1.trace ++ [Event.endInvoked e])
    ∧ (s1.returnHandlerCallback = CallbackSlot.engineCallback →
        (runMiddleware es steps req res).1.trace
          = s1.trace ++ [Event.returnHandlerInvoked e]) := by
  have hinv : Inv s1 := by
    have h0 := runHandler_inv es steps (initState req res) (initState_inv req res)
    rw [h] at h0
    exact h0
  rw [runMiddleware_err es steps req res s1 e h]
  refine ⟨?_, ?_, ?_⟩
  · cases ht : s1.returnHandlerCallback.truthy with
    | false => simp [ht, endInvoke]
    | true => simp [ht, returnHandlerInvoke]
  · intro hw
    have hslot := hinv.2.2 hw
    simp [hslot, CallbackSlot.truthy, endInvoke]
  · intro hcap
    simp [hcap, CallbackSlot.truthy, returnHandlerInvoke]

/-- Claim C3: when the handler invokes its continuation and then resolves
normally, the registered completion callback is invoked with null, only
after the engine has supplied that callback: the invocation is the last
trace event, an engineSuppliedCallback event precedes it, the callback slot
holds the engine's callback at the moment of invocation (the wrapper
re-awaits nextPromise first), and it is the unique completion of the
call.  This holds also when the handler called the continuation without
awaiting it. -/
theorem claim_C3_continue_then_resolve (es : Bool) (steps : List HStep)
    (req : JsonRpcRequest) (res : PendingJsonRpcResponse) (s1 : MwState)
    (h : runHandler es steps (initState req res) = (s1, none))
    (hw : s1.nextWasCalled = true) :
    ∃ pre : List Event,
      (runMiddleware es steps req res).1.trace = pre ++ [Event.returnHandlerInvoked JsVal.null]
      ∧ Event.engineSuppliedCallback ∈ pre
      ∧ (if s1.nextPromiseResolved then s1 else engineSuppliesCallback s1).returnHandlerCallback
          = CallbackSlot.engineCallback
      ∧ (runMiddleware es steps req res).1.trace.filter Event.isCompletion
          = [Event.returnHandlerInvoked JsVal.null] := by
  have hinv : Inv s1 := by
    have h0 := runHandler_inv es steps (initState req res) (initState_inv req res)
    rw [h] at h0
    exact h0
  have hc : s1.trace.filter Event.isCompletion = [] := by
    have hfc := runHandler_filterCompletion es steps (initState req res)
    rw [h] at hfc
    simpa [initState] using hfc
  rw [runMiddleware_ok_next es steps req res s1 h hw]
  cases hres : s1.nextPromiseResolved with
  | true =>
      refine ⟨s1.trace, ?_, (hinv.1 hres).2, ?_, ?_⟩
      · simp [hres, returnHandlerInvoke]
      · simpa [hres] using (hinv.1 hres).1
      · simp [hres, returnHandlerInvoke, List.filter_append, Event.isCompletion, hc]
  | false =>
      refine ⟨(engineSuppliesCallback s1).trace, ?_, ?_, ?_, ?_⟩
      · simp [hres, returnHandlerInvoke]
      · simp [engineSuppliesCallback]
      · simp [hres, engineSuppliesCallback]
      · simp [hres, returnHandlerInvoke, engineSuppliesCallback, List.filter_append,
          Event.isCompletion, hc]

/-- Claim C4: when the handler resolves without invoking its continuation,
the wrapper calls the engine's end exactly once with null, and the shared
response visible to the engine at that point is exactly the handler's own
mutations applied to the input response (the wrapper adds none). -/
theorem claim_C4_no_continue_finalize (es : Bool) (steps : List HStep)
    (req : JsonRpcRequest) (res : PendingJsonRpcResponse) (s1 : MwState)
    (h : runHandler es steps (initState req res) = (s1, none))
    (hw : s1.nextWasCalled = false) :
    (runMiddleware es steps req res).1.trace = s1.trace ++ [Event.endInvoked JsVal.null]
    ∧ (runMiddleware es steps req res).1.trace.filter Event.isCompletion
        = [Event.endInvoked JsVal.null]
    ∧ (runMiddleware es steps req res).1.res = s1.res
    ∧ (s1.req, s1.res) = applySteps steps (req, res) := by
  have hc : s1.trace.filter Event.isCompletion = [] := by
    have hfc := runHandler_filterCompletion es steps (initState req res)
    rw [h] at hfc
    simpa [initState] using hfc
  rw [runMiddleware_ok_noNext es steps req res s1 h hw]
  refine ⟨by simp [endInvoke], ?_, by simp [endInvoke], ?_⟩
  · simp [endInvoke, List.filter_append, Event.isCompletion, hc]
  · have h2 := runHandler_reqres es steps (initState req res)
    rw [h] at h2
    simpa [initState] using h2

/-- Claim C5: the continuation function asyncNext sets the
continuation-invoked flag, emits flagSet then nextInvoked as its first
actions, passes the engine a callback that stores the registration callback
and resolves the one-shot signal (engineSuppliesCallback), and when awaited
returns control to the handler only with the signal resolved, the engine's
callback having been captured whenever the signal was still unresolved at
the call. -/
theorem claim_C5_asyncNext_steps (es aw : Bool) (s : MwState) :
    (asyncNext es aw s).nextWasCalled = true
    ∧ (∃ t, (asyncNext es aw s).trace = s.trace ++ [Event.flagSet, Event.nextInvoked] ++ t)
    ∧ (engineSuppliesCallback s).returnHandlerCallback = CallbackSlot.engineCallback
    ∧ (engineSuppliesCallback s).nextPromiseResolved = true
    ∧ (engineSuppliesCallback s).trace = s.trace ++ [Event.engineSuppliedCallback]
    ∧ (asyncNext es true s).nextPromiseResolved = true
    ∧ (s.nextPromiseResolved = false →
        (asyncNext es true s).returnHandlerCallback = CallbackSlot.engineCallback) :=
  ⟨asyncNext_nextWasCalled es aw s, asyncNext_trace_shape es aw s, rfl, rfl, rfl,
    asyncNext_awaited_resolved es s, asyncNext_awaited_captured es s⟩

/-- Claim C6: given that the engine's end and the captured registration
callback do not themselves throw (they are modelled as non-throwing), the
promise returned by the produced middleware always resolves and never
rejects: every value thrown by the handler is absorbed by the catch block
into a completion channel. -/
theorem claim_C6_never_rejects (es : Bool) (steps : List HStep)
    (req : JsonRpcRequest) (res : PendingJsonRpcResponse) :
    (runMiddleware es steps req res).2 = MwOutcome.resolved := by
  rcases hr : runHandler es steps (initState req res) with ⟨s1, o⟩
  cases o with
  | none =>
      cases hw : s1.nextWasCalled with
      | false => rw [runMiddleware_ok_noNext es steps req res s1 hr hw]
      | true => rw [runMiddleware_ok_next es steps req res s1 hr hw]
  | some e =>
      rw [runMiddleware_err es steps req res s1 e hr]
      cases ht : s1.returnHandlerCallback.truthy <;> simp [ht]

/-- Claim C7: the wrapper and its continuation never mutate the request: the
request after a call equals the handler's own mutations applied to the input
request, and when the handler performs no request write the request is
unchanged. -/
theorem claim_C7_request_unchanged (es : Bool) (steps : List HStep)
    (req : JsonRpcRequest) (res : PendingJsonRpcResponse) :
    (runMiddleware es steps req res).1.req = (applySteps steps (req, res)).1
    ∧ (scriptWritesReq steps = false → (runMiddleware es steps req res).1.req = req) := by
  have h1 : (runMiddleware es steps req res).1.req = (applySteps steps (req, res)).1 := by
    rw [runMiddleware_req_eq]
    have h2 := runHandler_reqres es steps (initState req res)
    have h3 := congrArg Prod.fst h2
    simpa [initState] using h3
  refine ⟨h1, fun hnw => ?_⟩
  rw [h1, applySteps_noWrite steps (req, res) hnw]

/-- Claim C8: the nextWasCalled flag starts false, is set to true as the
first action of asyncNext (the flagSet event precedes the nextInvoked
event), is monotone (once true it stays true through the rest of the handler
run), and over a whole call it is true exactly when the handler invoked its
continuation. -/
theorem claim_C8_flag_monotone (es aw : Bool) (steps : List HStep)
    (req : JsonRpcRequest) (res : PendingJsonRpcResponse) (s : MwState) :
    (initState req res).nextWasCalled = false
    ∧ (asyncNext es aw s).nextWasCalled = true
    ∧ (∃ t, (asyncNext es aw s).trace = s.trace ++ [Event.flagSet, Event.nextInvoked] ++ t)
    ∧ (s.nextWasCalled = true → (runHandler es steps s).1.nextWasCalled = true)
    ∧ (runMiddleware es steps req res).1.nextWasCalled = scriptCallsNext steps := by
  refine ⟨rfl, asyncNext_nextWasCalled es aw s, asyncNext_trace_shape es aw s, ?_, ?_⟩
  · intro hs
    rw [runHandler_flag, hs, Bool.true_or]
  · rw [runMiddleware_flag_eq, runHandler_flag]
    simp [initState]

/-- Claim C9: the catch branch tests the truthiness of the captured callback
slot, not of the thrown value: any thrown value, including falsy ones such
as undefined, 0 and false, is delivered unchanged to the registered callback
when the callback was captured before the throw, and unchanged to finalize
when it was not. -/
theorem claim_C9_falsy_error_delivery (es : Bool) (e : JsVal)
    (req : JsonRpcRequest) (res : PendingJsonRpcResponse) :
    (runMiddleware es [HStep.callNext true, HStep.throwVal e] req res).1.trace
      = [Event.flagSet, Event.nextInvoked, Event.engineSuppliedCallback,
         Event.returnHandlerInvoked e]
    ∧ (runMiddleware es [HStep.throwVal e] req res).1.trace = [Event.endInvoked e]
    ∧ JsVal.truthy JsVal.undef = false
    ∧ JsVal.truthy (JsVal.num 0) = false
    ∧ JsVal.truthy (JsVal.bool false) = false := by
  cases es <;> exact ⟨rfl, rfl, rfl, rfl, rfl⟩

/-- Claim C10: the wrapper invokes the engine's next exactly as often as the
handler invokes its continuation: never when the handler does not call it,
and exactly once when the handler calls it exactly once. -/
theorem claim_C10_next_call_count (es : Bool) (steps : List HStep)
    (req : JsonRpcRequest) (res : PendingJsonRpcResponse) :
    ((runMiddleware es steps req res).1.trace.filter Event.isNextInvoked).length
      = executedNextCalls steps := by
  rcases hr : runHandler es steps (initState req res) with ⟨s1, o⟩
  have hc : (s1.trace.filter Event.isNextInvoked).length = executedNextCalls steps := by
    have h := runHandler_countNext es steps (initState req res)
    rw [hr] at h
    simpa [initState] using h
  cases o with
  | none =>
      cases hw : s1.nextWasCalled with
      | false =>
          rw [runMiddleware_ok_noNext es steps req res s1 hr hw]
          simp [endInvoke, List.filter_append, Event.isNextInvoked, hc]
      | true =>
          rw [runMiddleware_ok_next es steps req res s1 hr hw]
          cases hres : s1.nextPromiseResolved with
          | false =>
              simp [hres, returnHandlerInvoke, engineSuppliesCallback, List.filter_append,
                Event.isNextInvoked, hc]
          | true =>
              simp [hres, returnHandlerInvoke, List.filter_append, Event.isNextInvoked, hc]
  | some e =>
      rw [runMiddleware_err es steps req res s1 e hr]
      cases ht : s1.returnHandlerCallback.truthy with
      | false => simp [ht, endInvoke, List.filter_append, Event.isNextInvoked, hc]
      | true => simp [ht, returnHandlerInvoke, List.filter_append, Event.isNextInvoked, hc]

/-- Witness for C2: the handler that throws Error x before invoking its
continuation satisfies the hypothesis, and the call routes the error to
finalize. -/
theorem claim_C2_witness :
    runHandler false [HStep.throwVal (JsVal.errObj "x")] (initState sampleReq sampleRes)
      = ((runHandler false [HStep.throwVal (JsVal.errObj "x")]
            (initState sampleReq sampleRes)).1, some (JsVal.errObj "x"))
    ∧ (runMiddleware false [HStep.throwVal (JsVal.errObj "x")] sampleReq sampleRes).1.trace
      = (runHandler false [HStep.throwVal (JsVal.errObj "x")]
            (initState sampleReq sampleRes)).1.trace
        ++ [if (runHandler false [HStep.throwVal (JsVal.errObj "x")]
                  (initState sampleReq sampleRes)).1.returnHandlerCallback.truthy
            then Event.returnHandlerInvoked (JsVal.errObj "x")
            else Event.endInvoked (JsVal.errObj "x")] :=
  ⟨rfl, (claim_C2_error_routing false [HStep.throwVal (JsVal.errObj "x")] sampleReq sampleRes
      ((runHandler false [HStep.throwVal (JsVal.errObj "x")]
          (initState sampleReq sampleRes)).1) (JsVal.errObj "x") rfl).1⟩

/-- Witness for C3: the handler that invokes its continuation without
awaiting it and returns satisfies both hypotheses, and the completion is the
registered callback invoked with null after the engine supplied it. -/
theorem claim_C3_witness :
    (runHandler false [HStep.callNext false] (initState sampleReq sampleRes)
        = ((runHandler false [HStep.callNext false] (initState sampleReq sampleRes)).1, none)
      ∧ (runHandler false [HStep.callNext false]
          (initState sampleReq sampleRes)).1.nextWasCalled = true)
    ∧ (∃ pre : List Event,
        (runMiddleware false [HStep.callNext false] sampleReq sampleRes).1.trace
          = pre ++ [Event.returnHandlerInvoked JsVal.null]
        ∧ Event.engineSuppliedCallback ∈ pre
        ∧ (if (runHandler false [HStep.callNext false]
                (initState sampleReq sampleRes)).1.nextPromiseResolved
           then (runHandler false [HStep.callNext false] (initState sampleReq sampleRes)).1
           else engineSuppliesCallback
             ((runHandler false [HStep.callNext false]
                (initState sampleReq sampleRes)).1)).returnHandlerCallback
            = CallbackSlot.engineCallback
        ∧ (runMiddleware false [HStep.callNext false]
            sampleReq sampleRes).1.trace.filter Event.isCompletion
            = [Event.returnHandlerInvoked JsVal.null]) :=
  ⟨⟨rfl, rfl⟩, claim_C3_continue_then_resolve false [HStep.callNext false] sampleReq sampleRes
      ((runHandler false [HStep.callNext false] (initState sampleReq sampleRes)).1) rfl rfl⟩

/-- Witness for C4: the handler that sets the result to 1 and returns
satisfies both hypotheses; end is invoked once with null and the result 1 is
visible. -/
theorem claim_C4_witness :
    (runHandler true [HStep.setResult (JsVal.num 1)] (initState sampleReq sampleRes)
        = ((runHandler true [HStep.setResult (JsVal.num 1)]
              (initState sampleReq sampleRes)).1, none)
      ∧ (runHandler true [HStep.setResult (JsVal.num 1)]
          (initState sampleReq sampleRes)).1.nextWasCalled = false)
    ∧ ((runMiddleware true [HStep.setResult (JsVal.num 1)] sampleReq sampleRes).1.trace
        = (runHandler true [HStep.setResult (JsVal.num 1)]
            (initState sampleReq sampleRes)).1.trace ++ [Event.endInvoked JsVal.null]
      ∧ (runMiddleware true [HStep.setResult (JsVal.num 1)]
          sampleReq sampleRes).1.trace.filter Event.isCompletion
          = [Event.endInvoked JsVal.null]
      ∧ (runMiddleware true [HStep.setResult (JsVal.num 1)] sampleReq sampleRes).1.res
          = (runHandler true [HStep.setResult (JsVal.num 1)]
              (initState sampleReq sampleRes)).1.res
      ∧ ((runHandler true [HStep.setResult (JsVal.num 1)]
            (initState sampleReq sampleRes)).1.req,
         (runHandler true [HStep.setResult (JsVal.num 1)]
            (initState sampleReq sampleRes)).1.res)
          = applySteps [HStep.setResult (JsVal.num 1)] (sampleReq, sampleRes))
    ∧ (runMiddleware true [HStep.setResult (JsVal.num 1)] sampleReq sampleRes).1.res.result
        = some (JsVal.num 1) :=
  ⟨⟨rfl, rfl⟩, claim_C4_no_continue_finalize true [HStep.setResult (JsVal.num 1)]
      sampleReq sampleRes
      ((runHandler true [HStep.setResult (JsVal.num 1)] (initState sampleReq sampleRes)).1)
      rfl rfl, rfl⟩

/-- Witness for C5: from the initial state the signal is unresolved, and an
awaited asyncNext returns with the engine's callback captured. -/
theorem claim_C5_witness :
    (initState sampleReq sampleRes).nextPromiseResolved = false
    ∧ (asyncNext false true (initState sampleReq sampleRes)).returnHandlerCallback
        = CallbackSlot.engineCallback :=
  ⟨rfl, (claim_C5_asyncNext_steps false true (initState sampleReq sampleRes)).2.2.2.2.2.2 rfl⟩

/-- Witness for C7: a handler that only writes the result performs no
request write, and the request is unchanged by the call. -/
theorem claim_C7_witness :
    scriptWritesReq [HStep.setResult (JsVal.num 1)] = false
    ∧ (runMiddleware true [HStep.setResult (JsVal.num 1)] sampleReq sampleRes).1.req
        = sampleReq :=
  ⟨rfl, (claim_C7_request_unchanged true [HStep.setResult (JsVal.num 1)]
      sampleReq sampleRes).2 rfl⟩

/-- Witness for C8: a state in which the flag is already true keeps it true
through a further handler run. -/
theorem claim_C8_witness :
    (asyncNext true true (initState sampleReq sampleRes)).nextWasCalled = true
    ∧ (runHandler true []
        (asyncNext true true (initState sampleReq sampleRes))).1.nextWasCalled = true :=
  ⟨rfl, (claim_C8_flag_monotone true true [] sampleReq sampleRes
      (asyncNext true true (initState sampleReq sampleRes))).2.2.2.1 rfl⟩

end CreateAsyncMiddleware
